import Mathlib

/-!
Verification development for the ClipForge backend (a Flask service that
resolves a VOD URL to audio, transcribes it, and asks a text-generation
service for viral clip candidates).

Python strings are modelled as `List Char`; Python dicts coming back from
the transcription service are modelled as explicit structures; the two
external JSON/HTTP collaborators (`json.loads`, `requests`/`openai`) are
modelled as explicit function parameters, so that every control path of the
source functions is represented by a total Lean function.
-/

set_option linter.unusedVariables false

/-! ### Characters and Python-style `str.strip` -/

/-- ASCII whitespace, the characters Python's `str.strip()` removes on
ASCII input. -/
def isSpaceChar (c : Char) : Bool :=
  c == ' ' || c == '\t' || c == '\n' || c == '\r' || c == '\x0b' || c == '\x0c'

/-- Python `s.strip()`: drop whitespace from both ends. -/
def stripChars (s : List Char) : List Char :=
  ((s.dropWhile isSpaceChar).reverse.dropWhile isSpaceChar).reverse

/-- One step (from the right) of whitespace tokenization: `acc.1` is the
token currently being built, `acc.2` the tokens already complete. -/
def tokFlush (acc : List Char × List (List Char)) : List (List Char) :=
  if acc.1 = [] then acc.2 else acc.1 :: acc.2

def tokStep (c : Char) (acc : List Char × List (List Char)) :
    List Char × List (List Char) :=
  if isSpaceChar c then ([], tokFlush acc) else (c :: acc.1, acc.2)

/-- The maximal whitespace-free tokens of a character list, in order; this
is the "modulo whitespace normalization" view of a string used to state the
segmentation round-trip property. -/
def tokenize (l : List Char) : List (List Char) :=
  tokFlush (l.foldr tokStep ([], []))

/-- Join a list of texts, terminating each with a single space (the shape
`current_section += word["text"] + " "` accumulates in the source). -/
def joinSp (ts : List (List Char)) : List Char :=
  (ts.map (fun t => t ++ [' '])).flatten

/-! ### Data model -/

/-- A word-level timestamp record from the transcription service:
`{text, start, end}` (times in milliseconds). -/
structure WordToken where
  text : List Char
  start : Int
  end_ : Int
deriving DecidableEq, Inhabited

/-- A timestamped transcript section as built by `identify_clips`
(src/app.py lines 121-125 and 132-136). -/
structure TranscriptSegment where
  start_ms : Int
  end_ms : Int
  text : List Char
deriving DecidableEq, Inhabited

/-- Loop state of the section-building loop of `identify_clips`:
`timestamped_sections`, `current_section` and `section_start`
(src/app.py lines 115-117). -/
structure SegState where
  sections : List TranscriptSegment
  current_section : List Char
  section_start : Int

/-! ### Transcript segmentation (src/app.py lines 114-136)

The source iterates `for i, word in enumerate(words_with_timestamps)` with a
window constant of 50; the window is a parameter `k` here and the source's
call corresponds to `k = 50`. -/

/-- Concatenation of `word.text + " "` over a run of words: the value
`current_section` holds after consuming that run with no flush. -/
def rawText (ws : List WordToken) : List Char :=
  (ws.map (fun w => w.text ++ [' '])).flatten

/-- `words_with_timestamps[-1]["end"] if words_with_timestamps else 0`
(src/app.py line 134). -/
def lastEnd (words : List WordToken) : Int :=
  match words.getLast? with
  | some w => w.end_
  | none => 0

/-- The body of the `for` loop of src/app.py lines 119-128: at index `i`,
if `i % k == 0 and i > 0` flush the current section (its `end_ms` taken
from the word at index `i`, i.e. the first word of the next window) and
reset `section_start` to that word's start; then always append
`word.text + " "` to the current section. -/
def runLoop (k : Nat) : Nat → SegState → List WordToken → SegState
  | _, st, [] => st
  | i, st, word :: rest =>
    let st1 : SegState :=
      if i % k = 0 ∧ 0 < i then
        ⟨st.sections ++ [⟨st.section_start, word.end_, stripChars st.current_section⟩],
         [], word.start⟩
      else st
    runLoop k (i + 1)
      ⟨st1.sections, st1.current_section ++ word.text ++ [' '], st1.section_start⟩ rest

/-- The trailing `if current_section.strip(): timestamped_sections.append(...)`
of src/app.py lines 131-136. -/
def finalizeSections (st : SegState) (le : Int) : List TranscriptSegment :=
  if stripChars st.current_section = [] then st.sections
  else st.sections ++ [⟨st.section_start, le, stripChars st.current_section⟩]

/-- The section-building phase of `identify_clips` (src/app.py lines
114-136), with the window constant `50` generalized to `k`. -/
def segmentWords (k : Nat) (words : List WordToken) : List TranscriptSegment :=
  finalizeSections (runLoop k 0 ⟨[], [], 0⟩ words) (lastEnd words)

/-! ### Chunk-level description of the loop (proof-side definitions) -/

/-- The division of a list into consecutive runs of `k` elements (the last
run may be shorter). -/
def chunksOf (k : Nat) (l : List WordToken) : List (List WordToken) :=
  if h : l = [] ∨ k = 0 then []
  else l.take k :: chunksOf k (l.drop k)
termination_by l.length
decreasing_by
  simp only [not_or] at h
  have hl : l ≠ [] := h.1
  have hk : k ≠ 0 := h.2
  have : 0 < l.length := List.length_pos.mpr hl
  simp [List.length_drop]
  omega

/-- Sections that the loop state `(sections := secs already emitted,
current_section := cs, section_start := ss)` still produces when the
remaining words form exactly the listed chunks. -/
def restSections (ss : Int) (cs : List Char) (le : Int) :
    List (List WordToken) → List TranscriptSegment
  | [] => if stripChars cs = [] then [] else [⟨ss, le, stripChars cs⟩]
  | c :: rest =>
    ⟨ss, (c.headI).end_, stripChars cs⟩ :: restSections ((c.headI).start) (rawText c) le rest

/-- Chunk-by-chunk description of the produced sections: the section for a
chunk starts at `ss` (0 for the first chunk; otherwise the start of the
chunk's first word), its text is the chunk's stripped space-joined text, and
its `end_ms` is the end of the NEXT chunk's first word, except for the last
chunk where it is `le` (the last word's end) and where the section is
dropped entirely when its stripped text is empty. -/
def specSectionsGo (ss : Int) (le : Int) :
    List (List WordToken) → List TranscriptSegment
  | [] => []
  | [c] =>
    if stripChars (rawText c) = [] then [] else [⟨ss, le, stripChars (rawText c)⟩]
  | c :: c2 :: rest =>
    ⟨ss, (c2.headI).end_, stripChars (rawText c)⟩ ::
      specSectionsGo ((c2.headI).start) le (c2 :: rest)

/-- Specification-side description of `segmentWords`. -/
def specSections (k : Nat) (words : List WordToken) : List TranscriptSegment :=
  specSectionsGo 0 (lastEnd words) (chunksOf k words)

/-! ### JSON values and model-response handling -/

/-- JSON values (`json.loads` output); numbers are modelled as integers,
which covers every field the clip schema constrains. -/
inductive Json where
  | null
  | bool (b : Bool)
  | num (n : Int)
  | str (s : List Char)
  | arr (xs : List Json)
  | obj (fields : List (List Char × Json))

/-- The exceptions `identify_clips` (src/app.py) can raise: an HTTP/transport
error from `requests.post` / `raise_for_status`, or `json.JSONDecodeError`
from `json.loads`. -/
inductive ClipError where
  | upstream (e : List Char)
  | jsonDecode
deriving DecidableEq

/-- The code-fence cleanup applied to the model response, identical in
src/app.py lines 186-193 and src/unnamed/part_000 lines 212-221:
strip, drop a leading "```json" (7 chars) or "```" (3 chars), drop a
trailing "```", strip again. -/
def cleanContent (content : List Char) : List Char :=
  let content := stripChars content
  let content := if (("```json").data).isPrefixOf content then content.drop 7 else content
  let content := if (("```").data).isPrefixOf content then content.drop 3 else content
  let content := if (("```").data).isSuffixOf content then content.take (content.length - 3)
                 else content
  stripChars content

/-- `identify_clips` of src/app.py (lines 109-196), with the two external
collaborators explicit: `chat` is the single `requests.post` call to the
chat-completions endpoint (`Except.error` = transport fault or non-2xx
caught by `raise_for_status`), `jsonLoads` is `json.loads` (`none` = parse
failure, which the source does NOT catch). The second component counts how
many times the remote text-generation service was invoked on this call.
`transcript_text` is a parameter of the source function that its body never
uses. -/
def identify_clips
    (chat : List TranscriptSegment → Int → Except (List Char) (List Char))
    (jsonLoads : List Char → Option Json)
    (transcript_text : List Char) (words_with_timestamps : List WordToken)
    (num_clips : Int) : Except ClipError Json × Nat :=
  let timestamped_sections := segmentWords 50 words_with_timestamps
  match chat timestamped_sections num_clips with
  | Except.error e => (Except.error (ClipError.upstream e), 1)
  | Except.ok content =>
    match jsonLoads (cleanContent content) with
    | none => (Except.error ClipError.jsonDecode, 1)
    | some clips => (Except.ok clips, 1)

/-- `find_viral_clips` of src/unnamed/part_000 (lines 164-233): same
cleanup and parse, but the whole body sits in `try/except` handlers that
return `[]` both on `json.JSONDecodeError` and on any other exception
(including the transport failure of the OpenAI call), so the function is
total and never propagates an error. -/
def find_viral_clips
    (chat : List Char → Int → Except (List Char) (List Char))
    (jsonLoads : List Char → Option Json)
    (transcript_text : List Char) (num_clips : Int) : Json × Nat :=
  match chat transcript_text num_clips with
  | Except.error _ => (Json.arr [], 1)
  | Except.ok content =>
    match jsonLoads (cleanContent content) with
    | none => (Json.arr [], 1)
    | some clips => (clips, 1)

/-- First value bound to `key` in a JSON object's field list. -/
def lookupField (fields : List (List Char × Json)) (key : List Char) : Option Json :=
  match fields with
  | [] => none
  | (k, v) :: rest => if k = key then some v else lookupField rest key

/-- Modelled from the spec: the ClipCandidate field constraints of spec §3
(`title` a string of at most 60 characters, `start_ms` an integer ≥ 0,
`end_ms` an integer > `start_ms`, `virality_score` an integer in [1,10]).
The source contains no validation step; this definition exists to compare
the source's behaviour against the spec's claimed validation. -/
def clipSatisfiesSchema (j : Json) : Bool :=
  match j with
  | Json.obj fs =>
    match lookupField fs (("title").data), lookupField fs (("start_ms").data),
          lookupField fs (("end_ms").data), lookupField fs (("virality_score").data) with
    | some (Json.str t), some (Json.num s), some (Json.num e), some (Json.num v) =>
      decide (t.length ≤ 60) && decide (0 ≤ s) && decide (s < e) &&
        decide (1 ≤ v) && decide (v ≤ 10)
    | _, _, _, _ => false
  | _ => false

/-- Number of clips in an `identify_clips` result (the `len(clips)` the
caller observes): length of the returned JSON array, 0 otherwise. -/
def clipCount (r : Except ClipError Json × Nat) : Nat :=
  match r with
  | (Except.ok (Json.arr xs), _) => xs.length
  | _ => 0

/-! ### Transcription polling (src/app.py lines 83-103) -/

/-- The JSON body of a status response from the transcription service
(`data` in `poll_transcription`): its `status` string, and the fields the
code reads from it. -/
structure TranscriptData where
  status : List Char
  text : List Char
  words : List WordToken
  error : Option (List Char)
deriving DecidableEq

def completedStatus : List Char := ("completed").data

def errorStatus : List Char := ("error").data

/-- Message of the exception raised on `status == "error"`
(src/app.py line 99): `f"Transcription failed: {data.get('error', 'Unknown error')}"`. -/
def failText (d : TranscriptData) : List Char :=
  ("Transcription failed: ").data ++ (d.error.getD (("Unknown error").data))

/-- Message of the exception raised when the polling ceiling is exceeded
(src/app.py line 103). -/
def timeoutText : List Char := ("Transcription timed out after 10 minutes.").data

/-- Outcome of `poll_transcription`: return of the completed payload, or
one of its two exceptions. -/
inductive PollResult where
  | completed (data : TranscriptData)
  | failed (msg : List Char)
  | timedOut (msg : List Char)
deriving DecidableEq

/-- The `while time.time() - start_time < timeout` loop of
`poll_transcription` (src/app.py lines 88-103). The n-th status request
receives `svc n`; network requests are instantaneous, so elapsed time
grows only by the `time.sleep(5)` between consecutive checks, i.e. the
n-th request is issued at elapsed time `5 * n`. Besides the result the
function returns the list of elapsed times at which status requests were
issued. -/
def pollFrom (svc : Nat → TranscriptData) (timeout : Nat) (elapsed : Nat) (n : Nat) :
    PollResult × List Nat :=
  if h : elapsed < timeout then
    let data := svc n
    if data.status = completedStatus then (PollResult.completed data, [elapsed])
    else if data.status = errorStatus then (PollResult.failed (failText data), [elapsed])
    else
      let r := pollFrom svc timeout (elapsed + 5) (n + 1)
      (r.1, elapsed :: r.2)
  else (PollResult.timedOut timeoutText, [])
termination_by timeout - elapsed
decreasing_by omega

/-- `poll_transcription(transcript_id, timeout=600)`: the transcript id only
routes the requests, so the service function `svc` already stands for "the
status endpoint of this transcript". -/
def poll_transcription (svc : Nat → TranscriptData) (timeout : Nat) :
    PollResult × List Nat :=
  pollFrom svc timeout 0 0

/-! ### The /api/extract-clips route (src/app.py lines 208-275) -/

/-- The pipeline stages the route body runs, in order. -/
inductive Stage where
  | resolving
  | submitting
  | polling
  | identifying
deriving DecidableEq

/-- The fields of the route's JSON reply that the claims talk about:
HTTP code, `status`, `message` (error replies), `transcript_text` preview
and `clips` (success replies). -/
structure ExtractResp where
  http_code : Nat
  status : List Char
  message : Option (List Char)
  transcript_text : Option (List Char)
  clips : Option Json

/-- The four stage calls of the route, abstracted: each `Except.error e`
stands for that stage raising an exception with message `e`, which the
route's `try/except` turns into a 500 reply. -/
structure Pipeline where
  extract_audio_url : List Char → Except (List Char) (List Char)
  submit_transcription : List Char → Except (List Char) (List Char)
  poll_transcription : List Char → Except (List Char) TranscriptData
  identify_clips : List Char → List WordToken → Int → Except (List Char) Json

def successStatus : List Char := ("success").data

def vodRequiredMsg : List Char := ("vod_url is required").data

/-- Message of the 400 reply sent when the completed transcript is empty
(src/app.py lines 253-257). -/
def emptyTranscriptMsg : List Char :=
  ("Transcription returned empty. The VOD may not have clear audio.").data

/-- `extract_clips` of src/app.py (lines 208-275). Besides the reply it
returns the list of pipeline stages whose call was actually made, so that
"stage X was never invoked" is a statement about the model. -/
def extract_clips_route (p : Pipeline) (vod_url : Option (List Char))
    (num_clips : Int) : ExtractResp × List Stage :=
  match vod_url with
  | none => (⟨400, errorStatus, some vodRequiredMsg, none, none⟩, [])
  | some v =>
    if v = [] then (⟨400, errorStatus, some vodRequiredMsg, none, none⟩, [])
    else
      match p.extract_audio_url v with
      | Except.error e => (⟨500, errorStatus, some e, none, none⟩, [Stage.resolving])
      | Except.ok audio_url =>
        match p.submit_transcription audio_url with
        | Except.error e =>
          (⟨500, errorStatus, some e, none, none⟩, [Stage.resolving, Stage.submitting])
        | Except.ok transcript_id =>
          match p.poll_transcription transcript_id with
          | Except.error e =>
            (⟨500, errorStatus, some e, none, none⟩,
             [Stage.resolving, Stage.submitting, Stage.polling])
          | Except.ok data =>
            if data.text = [] ∨ data.words = [] then
              (⟨400, errorStatus, some emptyTranscriptMsg, none, none⟩,
               [Stage.resolving, Stage.submitting, Stage.polling])
            else
              match p.identify_clips data.text data.words num_clips with
              | Except.error e =>
                (⟨500, errorStatus, some e, none, none⟩,
                 [Stage.resolving, Stage.submitting, Stage.polling, Stage.identifying])
              | Except.ok clips =>
                (⟨200, successStatus, none, some (data.text.take 500), some clips⟩,
                 [Stage.resolving, Stage.submitting, Stage.polling, Stage.identifying])

/-! ### Concrete inputs used by witnesses and counterexamples -/

/-- A status service that reports `processing` on the first 3 checks and
`completed` (with a fixed payload) from the 4th on. -/
def demoPayload : TranscriptData :=
  ⟨completedStatus, ("hello world").data, [⟨("hello").data, 0, 400⟩, ⟨("world").data, 450, 900⟩], none⟩

def processingData : TranscriptData :=
  ⟨("processing").data, [], [], none⟩

def svcThreeThenDone : Nat → TranscriptData :=
  fun n => if n < 3 then processingData else demoPayload

/-- A status service that never reaches a terminal status. -/
def svcNeverDone : Nat → TranscriptData :=
  fun _ => processingData

/-- A status service that reports `error` immediately, with an upstream
error message. -/
def svcErrorAtOnce : Nat → TranscriptData :=
  fun _ => ⟨errorStatus, [], [], some (("bad audio").data)⟩

/-- A model-response clip object violating the schema
(`virality_score = 11`, `end_ms <= start_ms`). -/
def badClip : Json :=
  Json.obj [((("title").data), Json.str (("A").data)),
            ((("start_ms").data), Json.num 1000),
            ((("end_ms").data), Json.num 500),
            ((("virality_score").data), Json.num 11),
            ((("reason").data), Json.str (("r").data))]

/-- A model-response clip object satisfying the schema. -/
def goodClip : Json :=
  Json.obj [((("title").data), Json.str (("B").data)),
            ((("start_ms").data), Json.num 1000),
            ((("end_ms").data), Json.num 5000),
            ((("virality_score").data), Json.num 9),
            ((("reason").data), Json.str (("r").data))]

/-- Six (trivial) parsed array elements: more than the requested 5 clips. -/
def sixClips : List Json :=
  [Json.num 1, Json.num 2, Json.num 3, Json.num 4, Json.num 5, Json.num 6]

/-- Stage functions for pipeline witnesses: everything up to polling
succeeds and polling yields `demoPayload`; clip identification fails with
an upstream error message. -/
def demoPipeline : Pipeline :=
  ⟨fun _ => Except.ok (("http://audio").data),
   fun _ => Except.ok (("tid1").data),
   fun _ => Except.ok demoPayload,
   fun _ _ _ => Except.error (("boom").data)⟩

/-- Stage functions whose polling stage returns a completed transcript with
empty text and no words. -/
def emptyTranscriptPipeline : Pipeline :=
  ⟨fun _ => Except.ok (("http://audio").data),
   fun _ => Except.ok (("tid1").data),
   fun _ => Except.ok ⟨completedStatus, [], [], none⟩,
   fun _ _ _ => Except.error (("boom").data)⟩

/-- Three words used by segmentation witnesses. -/
def demoWords : List WordToken :=
  [⟨("aa").data, 100, 200⟩, ⟨("bb").data, 250, 300⟩, ⟨("cc").data, 350, 400⟩]

/-! ### Lemmas about the section-building loop -/

theorem rawText_nil : rawText [] = [] := rfl

theorem rawText_cons (w : WordToken) (ws : List WordToken) :
    rawText (w :: ws) = w.text ++ [' '] ++ rawText ws := by
  simp [rawText]

theorem runLoop_append (k : Nat) :
    ∀ (a b : List WordToken) (i : Nat) (st : SegState),
      runLoop k i st (a ++ b) = runLoop k (i + a.length) (runLoop k i st a) b := by
  intro a
  induction a with
  | nil => intro b i st; simp [runLoop]
  | cons w a ih =>
    intro b i st
    have hlen : i + (w :: a).length = (i + 1) + a.length := by
      simp [List.length_cons]; omega
    rw [hlen]
    simp only [List.cons_append, runLoop, List.append_eq]
    rw [ih]

theorem runLoop_noflush (k : Nat) :
    ∀ (ws : List WordToken) (i : Nat) (st : SegState),
      (∀ j, j < ws.length → ¬((i + j) % k = 0 ∧ 0 < i + j)) →
      runLoop k i st ws = ⟨st.sections, st.current_section ++ rawText ws, st.section_start⟩ := by
  intro ws
  induction ws with
  | nil =>
    intro i st h
    simp [runLoop, rawText]
  | cons w rest ih =>
    intro i st h
    have h0 : ¬(i % k = 0 ∧ 0 < i) := by
      have := h 0 (by simp)
      simpa using this
    simp only [runLoop, if_neg h0]
    rw [ih (i + 1) _ (fun j hj => by
      have := h (j + 1) (by simp [List.length_cons]; omega)
      have harith : i + (j + 1) = i + 1 + j := by omega
      rwa [harith] at this)]
    simp [rawText_cons, List.append_assoc]

theorem runLoop_one_chunk (k i0 : Nat) (st : SegState) (c : List WordToken)
    (hne : c ≠ []) (hlen : c.length ≤ k) (hmod : i0 % k = 0) (hpos : 0 < i0) :
    runLoop k i0 st c
      = ⟨st.sections ++ [⟨st.section_start, (c.headI).end_, stripChars st.current_section⟩],
         rawText c, (c.headI).start⟩ := by
  obtain ⟨w, rest, rfl⟩ := List.exists_cons_of_ne_nil hne
  obtain ⟨q, hq⟩ := Nat.dvd_of_mod_eq_zero hmod
  have hcond : (i0 % k = 0 ∧ 0 < i0) := ⟨hmod, hpos⟩
  simp only [runLoop, if_pos hcond]
  rw [runLoop_noflush k rest (i0 + 1) _ (fun j hj hzero => by
    have hjk : 1 + j < k := by
      have := List.length_cons w rest
      omega
    have h1 : i0 + 1 + j = k * q + (1 + j) := by omega
    have h2 : (i0 + 1 + j) % k = (1 + j) % k := by rw [h1, Nat.mul_add_mod]
    have h3 : (1 + j) % k = 1 + j := Nat.mod_eq_of_lt hjk
    omega)]
  simp [rawText_cons, List.headI, List.append_assoc]

/-! ### Lemmas about `chunksOf` -/

theorem chunksOf_nil (k : Nat) : chunksOf k [] = [] := by
  rw [chunksOf]; simp

theorem chunksOf_cons_of_ne_nil (k : Nat) (hk : 0 < k) (l : List WordToken) (hl : l ≠ []) :
    chunksOf k l = l.take k :: chunksOf k (l.drop k) := by
  rw [chunksOf, dif_neg (not_or.mpr ⟨hl, by omega⟩)]

theorem chunksOf_eq_nil_iff (k : Nat) (hk : 0 < k) (l : List WordToken) :
    chunksOf k l = [] ↔ l = [] := by
  constructor
  · intro h
    by_contra hl
    rw [chunksOf_cons_of_ne_nil k hk l hl] at h
    exact absurd h (by simp)
  · intro h; subst h; exact chunksOf_nil k

theorem chunksOf_flatten (k : Nat) (hk : 0 < k) (l : List WordToken) :
    (chunksOf k l).flatten = l := by
  induction l using chunksOf.induct k with
  | case1 l h =>
    rcases h with h | h
    · subst h; simp [chunksOf_nil]
    · omega
  | case2 l h ih =>
    simp only [not_or] at h
    rw [chunksOf_cons_of_ne_nil k hk l h.1]
    simp only [List.flatten_cons, ih]
    exact List.take_append_drop k l

theorem chunksOf_mem_ne_nil (k : Nat) (hk : 0 < k) (l : List WordToken) :
    ∀ c ∈ chunksOf k l, c ≠ [] := by
  induction l using chunksOf.induct k with
  | case1 l h =>
    rcases h with h | h
    · subst h; simp [chunksOf_nil]
    · omega
  | case2 l h ih =>
    simp only [not_or] at h
    rw [chunksOf_cons_of_ne_nil k hk l h.1]
    intro c hc
    rcases List.mem_cons.mp hc with hc | hc
    · subst hc
      simp only [ne_eq, List.take_eq_nil_iff, not_or]
      exact ⟨by omega, h.1⟩
    · exact ih c hc

theorem chunksOf_mem_length_le (k : Nat) (hk : 0 < k) (l : List WordToken) :
    ∀ c ∈ chunksOf k l, c.length ≤ k := by
  induction l using chunksOf.induct k with
  | case1 l h =>
    rcases h with h | h
    · subst h; simp [chunksOf_nil]
    · omega
  | case2 l h ih =>
    simp only [not_or] at h
    rw [chunksOf_cons_of_ne_nil k hk l h.1]
    intro c hc
    rcases List.mem_cons.mp hc with hc | hc
    · subst hc; simp [List.length_take]
    · exact ih c hc

theorem chunksOf_dropLast_length (k : Nat) (hk : 0 < k) (l : List WordToken) :
    ∀ c ∈ (chunksOf k l).dropLast, c.length = k := by
  induction l using chunksOf.induct k with
  | case1 l h =>
    rcases h with h | h
    · subst h; simp [chunksOf_nil]
    · omega
  | case2 l h ih =>
    simp only [not_or] at h
    rw [chunksOf_cons_of_ne_nil k hk l h.1]
    by_cases ht : chunksOf k (l.drop k) = []
    · rw [ht]; simp
    · obtain ⟨c2, rest2, hch⟩ := List.exists_cons_of_ne_nil ht
      rw [hch, List.dropLast_cons₂]
      intro c hc
      rcases List.mem_cons.mp hc with hc | hc
      · subst hc
        have hdrop : l.drop k ≠ [] := by
          intro hd
          rw [hd, chunksOf_nil] at ht
          exact ht rfl
        have : k < l.length := by
          by_contra hkl
          exact hdrop (List.drop_eq_nil_of_le (by omega))
        simp [List.length_take]
        omega
      · rw [← hch] at hc
        exact ih c hc

theorem chunksOf_length (k : Nat) (hk : 0 < k) (l : List WordToken) :
    (chunksOf k l).length = (l.length + k - 1) / k := by
  induction l using chunksOf.induct k with
  | case1 l h =>
    rcases h with h | h
    · subst h
      rw [chunksOf_nil]
      have e1 : (0 + k - 1) / k = 0 := Nat.div_eq_of_lt (by omega)
      simp only [List.length_nil, e1]
    · omega
  | case2 l h ih =>
    simp only [not_or] at h
    rw [chunksOf_cons_of_ne_nil k hk l h.1]
    have hlpos : 0 < l.length := List.length_pos.mpr h.1
    simp only [List.length_cons, ih, List.length_drop]
    by_cases hkl : l.length ≤ k
    · have h1 : l.length - k = 0 := by omega
      have h2 : l.length + k - 1 = (l.length - 1) + k := by omega
      have e1 : (0 + k - 1) / k = 0 := Nat.div_eq_of_lt (by omega)
      have e2 : (l.length - 1) / k = 0 := Nat.div_eq_of_lt (by omega)
      simp only [h1, h2, Nat.add_div_right _ hk, e1, e2]
    · have h2 : l.length + k - 1 = ((l.length - k) + k - 1) + k := by omega
      simp only [h2, Nat.add_div_right _ hk]

/-! ### Characterizing the loop chunk by chunk -/

theorem finalize_runLoop_chunks (k : Nat) (le : Int) :
    ∀ (chunks : List (List WordToken)) (secs : List TranscriptSegment) (cs : List Char)
      (ss : Int) (i0 : Nat),
      (∀ c ∈ chunks, c ≠ []) → (∀ c ∈ chunks.dropLast, c.length = k) →
      (∀ c ∈ chunks, c.length ≤ k) → i0 % k = 0 → 0 < i0 →
      finalizeSections (runLoop k i0 ⟨secs, cs, ss⟩ chunks.flatten) le
        = secs ++ restSections ss cs le chunks := by
  intro chunks
  induction chunks with
  | nil =>
    intro secs cs ss i0 _ _ _ _ _
    by_cases h : stripChars cs = [] <;>
      simp [runLoop, finalizeSections, restSections, h]
  | cons c rest ih =>
    intro secs cs ss i0 hne hfull hle hmod hpos
    have hcne : c ≠ [] := hne c (by simp)
    have hcle : c.length ≤ k := hle c (by simp)
    rw [List.flatten_cons, runLoop_append k c rest.flatten i0 _,
        runLoop_one_chunk k i0 _ c hcne hcle hmod hpos]
    cases rest with
    | nil =>
      simp only [List.flatten_nil, runLoop]
      by_cases h : stripChars (rawText c) = [] <;>
        simp [finalizeSections, restSections, h, List.append_assoc]
    | cons c2 rest2 =>
      have hcfull : c.length = k := by
        apply hfull c
        rw [List.dropLast_cons₂]
        simp
      have hmod2 : (i0 + c.length) % k = 0 := by
        rw [hcfull, Nat.add_mod_right, hmod]
      have ihr := ih (secs ++ [⟨ss, (c.headI).end_, stripChars cs⟩]) (rawText c)
        ((c.headI).start) (i0 + c.length)
        (fun x hx => hne x (by simp [hx]))
        (fun x hx => hfull x (by rw [List.dropLast_cons₂]; simp [hx]))
        (fun x hx => hle x (by simp [hx]))
        hmod2 (by omega)
      rw [ihr]
      simp [restSections, List.append_assoc]

theorem specSectionsGo_eq_restSections (le : Int) :
    ∀ (rest : List (List WordToken)) (c : List WordToken) (ss : Int),
      specSectionsGo ss le (c :: rest) = restSections ss (rawText c) le rest := by
  intro rest
  induction rest with
  | nil =>
    intro c ss
    by_cases h : stripChars (rawText c) = [] <;>
      simp [specSectionsGo, restSections, h]
  | cons c2 rest2 ih =>
    intro c ss
    simp only [specSectionsGo, restSections]
    rw [ih c2 ((c2.headI).start)]

/-- The segmentation loop of `identify_clips` produces exactly the
chunk-by-chunk sections described by `specSections`. -/
theorem segmentWords_eq_specSections (k : Nat) (hk : 0 < k) (words : List WordToken) :
    segmentWords k words = specSections k words := by
  by_cases hw : words = []
  · subst hw
    simp [segmentWords, runLoop, finalizeSections, specSections, chunksOf_nil,
          specSectionsGo, stripChars]
  · have hchne : chunksOf k words ≠ [] := by
      rw [ne_eq, chunksOf_eq_nil_iff k hk]
      exact hw
    obtain ⟨c, rest, hch⟩ := List.exists_cons_of_ne_nil hchne
    have hfl : c ++ rest.flatten = words := by
      have := chunksOf_flatten k hk words
      rw [hch, List.flatten_cons] at this
      exact this
    have hcle : c.length ≤ k :=
      chunksOf_mem_length_le k hk words c (by rw [hch]; simp)
    unfold specSections
    rw [hch, specSectionsGo_eq_restSections]
    unfold segmentWords
    have hrun : runLoop k 0 ⟨[], [], 0⟩ words
        = runLoop k (0 + c.length) (runLoop k 0 ⟨[], [], 0⟩ c) rest.flatten := by
      rw [← runLoop_append, hfl]
    rw [hrun, runLoop_noflush k c 0 _ (fun j hj hzero => by
      rcases hzero with ⟨hz, hp⟩
      have hjk : j < k := by omega
      have : (0 + j) % k = j := by
        rw [Nat.zero_add]
        exact Nat.mod_eq_of_lt hjk
      omega)]
    cases rest with
    | nil =>
      simp only [List.flatten_nil, runLoop]
      by_cases h : stripChars (rawText c) = [] <;>
        simp [finalizeSections, restSections, h]
    | cons c2 rest2 =>
      have hcfull : c.length = k := by
        apply chunksOf_dropLast_length k hk words
        rw [hch, List.dropLast_cons₂]
        simp
      have hres := finalize_runLoop_chunks k (lastEnd words) (c2 :: rest2) [] (rawText c) 0
        (0 + c.length)
        (fun x hx => chunksOf_mem_ne_nil k hk words x (by rw [hch]; simp [hx]))
        (fun x hx => chunksOf_dropLast_length k hk words x
          (by rw [hch, List.dropLast_cons₂]; simp [hx]))
        (fun x hx => chunksOf_mem_length_le k hk words x (by rw [hch]; simp [hx]))
        (by rw [Nat.zero_add, hcfull, Nat.mod_self])
        (by have : 0 < c.length := List.length_pos.mpr (chunksOf_mem_ne_nil k hk words c
              (by rw [hch]; simp))
            omega)
      simp only [Nat.zero_add, List.nil_append] at hres ⊢
      rw [hres]

/-! ### Lemmas about whitespace tokenization -/

theorem tokFlush_append (x : List Char) (y T : List (List Char)) :
    tokFlush (x, y ++ T) = tokFlush (x, y) ++ T := by
  by_cases hx : x = [] <;> simp [tokFlush, hx]

theorem foldr_tokStep_init (T : List (List Char)) :
    ∀ (a : List Char),
      a.foldr tokStep ([], T)
        = ((a.foldr tokStep ([], [])).1, (a.foldr tokStep ([], [])).2 ++ T) := by
  intro a
  induction a with
  | nil => simp
  | cons c a ih =>
    simp only [List.foldr_cons, ih, tokStep]
    by_cases h : isSpaceChar c
    · simp [h, tokFlush_append]
    · simp [h]

theorem tokenize_append_space (c : Char) (hc : isSpaceChar c = true) (a b : List Char) :
    tokenize (a ++ c :: b) = tokenize a ++ tokenize b := by
  unfold tokenize
  rw [List.foldr_append]
  have h1 : (c :: b).foldr tokStep ([], []) = ([], tokFlush (b.foldr tokStep ([], []))) := by
    simp [List.foldr_cons, tokStep, hc]
  rw [h1, foldr_tokStep_init, tokFlush_append]

theorem tokenize_space_cons (c : Char) (hc : isSpaceChar c = true) (l : List Char) :
    tokenize (c :: l) = tokenize l := by
  unfold tokenize
  simp [List.foldr_cons, tokStep, hc, tokFlush]

theorem tokenize_all_space (s : List Char) (hs : ∀ c ∈ s, isSpaceChar c = true) :
    tokenize s = [] := by
  induction s with
  | nil => rfl
  | cons c s ih =>
    rw [tokenize_space_cons c (hs c (by simp))]
    exact ih (fun d hd => hs d (by simp [hd]))

theorem tokenize_append_all_space (l s : List Char) (hs : ∀ c ∈ s, isSpaceChar c = true) :
    tokenize (l ++ s) = tokenize l := by
  cases s with
  | nil => simp
  | cons c s2 =>
    rw [tokenize_append_space c (hs c (by simp)) l s2,
        tokenize_all_space s2 (fun d hd => hs d (by simp [hd]))]
    simp

theorem tokenize_dropWhile (l : List Char) :
    tokenize (l.dropWhile isSpaceChar) = tokenize l := by
  induction l with
  | nil => rfl
  | cons c l ih =>
    by_cases h : isSpaceChar c
    · rw [List.dropWhile_cons, if_pos h, ih, tokenize_space_cons c h]
    · rw [List.dropWhile_cons, if_neg h]

theorem tokenize_stripChars (l : List Char) : tokenize (stripChars l) = tokenize l := by
  unfold stripChars
  have h1 : (l.dropWhile isSpaceChar).reverse
      = (l.dropWhile isSpaceChar).reverse.takeWhile isSpaceChar
          ++ (l.dropWhile isSpaceChar).reverse.dropWhile isSpaceChar :=
    (List.takeWhile_append_dropWhile isSpaceChar _).symm
  have h2 : l.dropWhile isSpaceChar
      = ((l.dropWhile isSpaceChar).reverse.dropWhile isSpaceChar).reverse
          ++ ((l.dropWhile isSpaceChar).reverse.takeWhile isSpaceChar).reverse := by
    conv_lhs => rw [← List.reverse_reverse (l.dropWhile isSpaceChar), h1]
    rw [List.reverse_append]
  have h3 : tokenize (((l.dropWhile isSpaceChar).reverse.dropWhile isSpaceChar).reverse)
      = tokenize (l.dropWhile isSpaceChar) := by
    conv_rhs => rw [h2]
    rw [tokenize_append_all_space _ _ (fun c hc => by
      rw [List.mem_reverse] at hc
      exact List.mem_takeWhile_imp hc)]
  rw [h3, tokenize_dropWhile]

theorem tokenize_joinSp (ts : List (List Char)) :
    tokenize (joinSp ts) = (ts.map tokenize).flatten := by
  induction ts with
  | nil => rfl
  | cons t ts ih =>
    have h1 : joinSp (t :: ts) = t ++ ' ' :: joinSp ts := by
      simp [joinSp, List.flatten_cons, List.append_assoc]
    rw [h1, tokenize_append_space ' ' (by simp [isSpaceChar]) t (joinSp ts), ih]
    simp

theorem specSectionsGo_tokens (le : Int) :
    ∀ (chunks : List (List WordToken)) (ss : Int),
      ((specSectionsGo ss le chunks).map (fun s => tokenize s.text)).flatten
        = (chunks.map (fun c => tokenize (rawText c))).flatten := by
  intro chunks
  induction chunks with
  | nil => intro ss; rfl
  | cons c rest ih =>
    intro ss
    cases rest with
    | nil =>
      by_cases h : stripChars (rawText c) = []
      · have hz : tokenize (rawText c) = [] := by
          have := tokenize_stripChars (rawText c)
          rw [h] at this
          exact this.symm
        simp [specSectionsGo, h, hz]
      · simp [specSectionsGo, h, tokenize_stripChars]
    | cons c2 rest2 =>
      simp only [specSectionsGo, List.map_cons, List.flatten_cons, tokenize_stripChars]
      rw [ih]
      simp

theorem tokenize_rawText (c : List WordToken) :
    tokenize (rawText c) = (c.map (fun w => tokenize w.text)).flatten := by
  have h : rawText c = joinSp (c.map (fun w => w.text)) := by
    simp [rawText, joinSp, List.map_map]
    rfl
  rw [h, tokenize_joinSp, List.map_map]
  rfl

theorem segment_tokens_eq (k : Nat) (hk : 0 < k) (words : List WordToken) :
    tokenize (joinSp ((segmentWords k words).map (fun s => s.text)))
      = tokenize (joinSp (words.map (fun w => w.text))) := by
  rw [segmentWords_eq_specSections k hk, tokenize_joinSp, tokenize_joinSp,
      List.map_map, List.map_map]
  have hL : ((specSections k words).map (tokenize ∘ fun s => s.text)).flatten
      = ((chunksOf k words).map (fun c => tokenize (rawText c))).flatten := by
    unfold specSections
    exact specSectionsGo_tokens (lastEnd words) (chunksOf k words) 0
  rw [hL]
  have h1 : (chunksOf k words).map (fun c => tokenize (rawText c))
      = (chunksOf k words).map (fun c => ((c.map (fun w => tokenize w.text)).flatten)) := by
    simp only [tokenize_rawText]
  rw [h1]
  have h2 : (chunksOf k words).map (fun c => ((c.map (fun w => tokenize w.text)).flatten))
      = (((chunksOf k words).map (List.map (fun w => tokenize w.text))).map List.flatten) := by
    rw [List.map_map]
    rfl
  rw [h2, ← List.flatten_flatten, ← List.map_flatten, chunksOf_flatten k hk]
  rfl

/-! ### When does a section survive the final non-empty check -/

theorem stripChars_eq_nil_iff (l : List Char) :
    stripChars l = [] ↔ ∀ c ∈ l, isSpaceChar c = true := by
  constructor
  · intro h c hc
    unfold stripChars at h
    rw [List.reverse_eq_nil_iff, List.dropWhile_eq_nil_iff] at h
    have ha : ∀ d ∈ l.dropWhile isSpaceChar, isSpaceChar d = true := by
      intro d hd
      exact h d (List.mem_reverse.mpr hd)
    have hsplit : l = l.takeWhile isSpaceChar ++ l.dropWhile isSpaceChar :=
      (List.takeWhile_append_dropWhile isSpaceChar l).symm
    rw [hsplit] at hc
    rcases List.mem_append.mp hc with hc | hc
    · exact List.mem_takeWhile_imp hc
    · exact ha c hc
  · intro h
    unfold stripChars
    have h1 : l.dropWhile isSpaceChar = [] := List.dropWhile_eq_nil_iff.mpr h
    rw [h1]
    rfl

theorem stripChars_rawText_ne_nil (c : List WordToken) (hc : c ≠ [])
    (hw : ∀ w ∈ c, stripChars w.text ≠ []) : stripChars (rawText c) ≠ [] := by
  obtain ⟨w, rest, rfl⟩ := List.exists_cons_of_ne_nil hc
  have hne := hw w (by simp)
  intro hcontra
  apply hne
  rw [stripChars_eq_nil_iff] at hcontra ⊢
  intro ch hch
  apply hcontra
  rw [rawText_cons]
  simp [hch]

theorem specSectionsGo_texts (le : Int) :
    ∀ (chunks : List (List WordToken)) (ss : Int),
      (∀ c ∈ chunks, stripChars (rawText c) ≠ []) →
      (specSectionsGo ss le chunks).map (fun s => s.text)
        = chunks.map (fun c => stripChars (rawText c)) := by
  intro chunks
  induction chunks with
  | nil => intro ss _; rfl
  | cons c rest ih =>
    intro ss h
    cases rest with
    | nil =>
      have hc := h c (by simp)
      simp [specSectionsGo, hc]
    | cons c2 rest2 =>
      simp only [specSectionsGo, List.map_cons]
      rw [ih ((c2.headI).start) (fun x hx => h x (by simp [hx]))]
      simp

/-! ### Lemmas about the polling loop -/

theorem pollFrom_timeout (svc : Nat → TranscriptData) (timeout elapsed n : Nat)
    (h : ¬ elapsed < timeout) :
    pollFrom svc timeout elapsed n = (PollResult.timedOut timeoutText, []) := by
  rw [pollFrom, dif_neg h]

theorem pollFrom_completed (svc : Nat → TranscriptData) (timeout elapsed n : Nat)
    (h : elapsed < timeout) (hc : (svc n).status = completedStatus) :
    pollFrom svc timeout elapsed n = (PollResult.completed (svc n), [elapsed]) := by
  rw [pollFrom, dif_pos h]
  simp [hc]

theorem pollFrom_error (svc : Nat → TranscriptData) (timeout elapsed n : Nat)
    (h : elapsed < timeout) (he : (svc n).status = errorStatus) :
    pollFrom svc timeout elapsed n = (PollResult.failed (failText (svc n)), [elapsed]) := by
  have hnc : ¬ (svc n).status = completedStatus := by
    rw [he]
    decide
  rw [pollFrom, dif_pos h]
  simp [hnc, he]
  decide

theorem pollFrom_nonterminal (svc : Nat → TranscriptData) (timeout elapsed n : Nat)
    (h : elapsed < timeout) (h1 : ¬ (svc n).status = completedStatus)
    (h2 : ¬ (svc n).status = errorStatus) :
    pollFrom svc timeout elapsed n
      = ((pollFrom svc timeout (elapsed + 5) (n + 1)).1,
         elapsed :: (pollFrom svc timeout (elapsed + 5) (n + 1)).2) := by
  rw [pollFrom, dif_pos h]
  simp [h1, h2]

theorem pollFrom_never_terminal (svc : Nat → TranscriptData) (timeout : Nat)
    (hnt : ∀ m, (svc m).status ≠ completedStatus ∧ (svc m).status ≠ errorStatus) :
    ∀ (fuel elapsed n : Nat), timeout - elapsed ≤ fuel →
      pollFrom svc timeout elapsed n
        = (PollResult.timedOut timeoutText,
           (List.range ((timeout - elapsed + 4) / 5)).map (fun i => elapsed + 5 * i)) := by
  intro fuel
  induction fuel with
  | zero =>
    intro elapsed n hf
    have h : ¬ elapsed < timeout := by omega
    rw [pollFrom_timeout svc timeout elapsed n h]
    have h0 : timeout - elapsed = 0 := by omega
    rw [h0]
    have h5 : (0 + 4) / 5 = 0 := by norm_num
    rw [h5]
    rfl
  | succ fuel ih =>
    intro elapsed n hf
    by_cases h : elapsed < timeout
    · rw [pollFrom_nonterminal svc timeout elapsed n h (hnt n).1 (hnt n).2,
          ih (elapsed + 5) (n + 1) (by omega)]
      have hd : (timeout - elapsed + 4) / 5 = (timeout - (elapsed + 5) + 4) / 5 + 1 := by
        omega
      have htail : (List.range ((timeout - (elapsed + 5) + 4) / 5)).map
            ((fun i => elapsed + 5 * i) ∘ Nat.succ)
          = (List.range ((timeout - (elapsed + 5) + 4) / 5)).map
            (fun i => elapsed + 5 + 5 * i) :=
        List.map_congr_left (fun i hi => by simp only [Function.comp_apply]; omega)
      have hlist : (List.range ((timeout - elapsed + 4) / 5)).map (fun i => elapsed + 5 * i)
          = elapsed :: (List.range ((timeout - (elapsed + 5) + 4) / 5)).map
              (fun i => elapsed + 5 + 5 * i) := by
        rw [hd, List.range_succ_eq_map, List.map_cons, List.map_map, htail]
        simp
      rw [hlist]
    · rw [pollFrom_timeout svc timeout elapsed n h]
      have h0 : timeout - elapsed = 0 := by omega
      rw [h0]
      have h5 : (0 + 4) / 5 = 0 := by norm_num
      rw [h5]
      rfl

/-! ### Claim theorems -/

/-- C2 (counterexample): the claim says each segment's `start_ms` equals the
start timestamp of the first word of the segment, in particular the first
segment's `start_ms` equals the first word's start. On the single-word input
whose word starts at 7 ms, the produced segment has `start_ms = 0`, because
`section_start` is initialized to 0 rather than to the first word's start. -/
theorem C2_counterexample :
    (segmentWords 50 [⟨("hi").data, 7, 9⟩]).map (fun s => s.start_ms) ≠ [(7 : Int)]
    ∧ segmentWords 50 [⟨("hi").data, 7, 9⟩] = [⟨0, 9, ("hi").data⟩] := by
  constructor
  · decide
  · decide

/-- C2 (amended): the segmentation of `identify_clips` equals the
chunk-by-chunk description `specSections`: the first segment's `start_ms` is
0 (not the first word's start); every later segment's `start_ms` is the
start of its chunk's first word; every segment except the last has `end_ms`
equal to the end of the FIRST word of the NEXT chunk (not the last word of
its own chunk); the last segment's `end_ms` is the last word's end, and the
last segment is omitted when its stripped text is empty. -/
theorem C2_segment_bounds_amended (k : Nat) (words : List WordToken) (hk : 0 < k) :
    segmentWords k words = specSections k words :=
  segmentWords_eq_specSections k hk words

theorem C2_segment_bounds_amended_witness :
    segmentWords 2 demoWords = specSections 2 demoWords :=
  C2_segment_bounds_amended 2 demoWords (by decide)

/-- C6 (counterexample): the claim says segmentation of any word sequence
yields exactly `ceil(n / window)` segments. A single word whose text is
empty yields 0 segments instead of 1, because the trailing
`if current_section.strip()` check drops the final section. -/
theorem C6_counterexample :
    (segmentWords 50 [⟨[], 0, 1⟩]).length ≠ 1 := by
  decide

/-- C6 (amended): provided every word's text has a non-whitespace character
(so no trailing section is dropped by the `strip()` check), segmentation at
window `k > 0` produces exactly `ceil(n / k)` segments, whose texts are, in
order, the stripped space-joined texts of the consecutive `k`-word chunks of
the input; the chunks concatenate back to the input and each chunk is
non-empty with at most `k` words — i.e. the segments partition the words in
order without gaps or overlaps. For the empty input both sides are empty. -/
theorem C6_partition_amended (k : Nat) (words : List WordToken) (hk : 0 < k)
    (hw : ∀ w ∈ words, stripChars w.text ≠ []) :
    (segmentWords k words).length = (words.length + k - 1) / k
    ∧ (segmentWords k words).map (fun s => s.text)
        = (chunksOf k words).map (fun c => stripChars (rawText c))
    ∧ (chunksOf k words).flatten = words
    ∧ ∀ c ∈ chunksOf k words, c ≠ [] ∧ c.length ≤ k := by
  have hchunk : ∀ c ∈ chunksOf k words, stripChars (rawText c) ≠ [] := by
    intro c hc
    apply stripChars_rawText_ne_nil c (chunksOf_mem_ne_nil k hk words c hc)
    intro w hwmem
    apply hw
    rw [← chunksOf_flatten k hk words]
    exact List.mem_flatten.mpr ⟨c, hc, hwmem⟩
  have htexts : (segmentWords k words).map (fun s => s.text)
      = (chunksOf k words).map (fun c => stripChars (rawText c)) := by
    rw [segmentWords_eq_specSections k hk]
    unfold specSections
    exact specSectionsGo_texts (lastEnd words) (chunksOf k words) 0 hchunk
  refine ⟨?_, htexts, chunksOf_flatten k hk words,
    fun c hc => ⟨chunksOf_mem_ne_nil k hk words c hc, chunksOf_mem_length_le k hk words c hc⟩⟩
  have h1 : (segmentWords k words).length = (chunksOf k words).length := by
    have h2 := congrArg List.length htexts
    simpa using h2
  rw [h1, chunksOf_length k hk]

theorem C6_partition_amended_witness :
    (segmentWords 2 demoWords).length = (demoWords.length + 2 - 1) / 2
    ∧ (segmentWords 2 demoWords).map (fun s => s.text)
        = (chunksOf 2 demoWords).map (fun c => stripChars (rawText c))
    ∧ (chunksOf 2 demoWords).flatten = demoWords
    ∧ ∀ c ∈ chunksOf 2 demoWords, c ≠ [] ∧ c.length ≤ 2 :=
  C6_partition_amended 2 demoWords (by decide) (by decide)

/-- C8 (confirmed): concatenating (with spaces) the texts of all segments
reproduces the concatenation (with spaces) of all word texts modulo
whitespace normalization: both sides have identical whitespace-separated
token lists. This holds for every word sequence, including the case where
the trailing all-whitespace section is dropped. -/
theorem C8_roundtrip (k : Nat) (words : List WordToken) (hk : 0 < k) :
    tokenize (joinSp ((segmentWords k words).map (fun s => s.text)))
      = tokenize (joinSp (words.map (fun w => w.text))) :=
  segment_tokens_eq k hk words

theorem C8_roundtrip_witness :
    tokenize (joinSp ((segmentWords 2 demoWords).map (fun s => s.text)))
      = tokenize (joinSp (demoWords.map (fun w => w.text))) :=
  C8_roundtrip 2 demoWords (by decide)

/-- C4 (confirmed): against a status service that is non-terminal on the
first 3 checks and `completed` on the 4th, `poll_transcription` with the
default 600-second timeout performs exactly 4 status requests (at elapsed
times 0, 5, 10, 15 seconds) and returns the completed payload. -/
theorem C4_poll_four_requests (svc : Nat → TranscriptData)
    (h3 : ∀ i, i < 3 → (svc i).status ≠ completedStatus ∧ (svc i).status ≠ errorStatus)
    (hc : (svc 3).status = completedStatus) :
    poll_transcription svc 600 = (PollResult.completed (svc 3), [0, 5, 10, 15]) := by
  have e0 := pollFrom_nonterminal svc 600 0 0 (by omega) (h3 0 (by omega)).1 (h3 0 (by omega)).2
  have e1 := pollFrom_nonterminal svc 600 5 1 (by omega) (h3 1 (by omega)).1 (h3 1 (by omega)).2
  have e2 := pollFrom_nonterminal svc 600 10 2 (by omega) (h3 2 (by omega)).1 (h3 2 (by omega)).2
  have e3 := pollFrom_completed svc 600 15 3 (by omega) hc
  unfold poll_transcription
  norm_num at e0 e1 e2
  rw [e0, e1, e2, e3]

theorem C4_poll_four_requests_witness :
    poll_transcription svcThreeThenDone 600
      = (PollResult.completed demoPayload, [0, 5, 10, 15]) :=
  C4_poll_four_requests svcThreeThenDone (by decide) (by decide)

/-- C5 (confirmed): (a) against a service that never reports a terminal
status, `poll_transcription` fails with the timeout error, its status
requests are issued at the elapsed times 0, 5, 10, ... (exactly 5 seconds
apart, one `time.sleep(5)` between consecutive checks), there are exactly
`ceil(timeout / 5)` of them, and every request is issued strictly before
the ceiling — none after it is exceeded; (b) if the service reports status
`error`, `poll_transcription` fails with an error carrying the upstream
error message. -/
theorem C5_poll_timeout_and_error (svc : Nat → TranscriptData) (timeout : Nat) :
    ((∀ m, (svc m).status ≠ completedStatus ∧ (svc m).status ≠ errorStatus) →
      poll_transcription svc timeout
        = (PollResult.timedOut timeoutText,
           (List.range ((timeout + 4) / 5)).map (fun i => 5 * i))
      ∧ ∀ t ∈ (poll_transcription svc timeout).2, t < timeout)
    ∧ ((svc 0).status = errorStatus → 0 < timeout →
        poll_transcription svc timeout = (PollResult.failed (failText (svc 0)), [0])) := by
  constructor
  · intro hnt
    have h := pollFrom_never_terminal svc timeout hnt timeout 0 0 (by omega)
    simp only [Nat.sub_zero] at h
    have h2 : poll_transcription svc timeout
        = (PollResult.timedOut timeoutText,
           (List.range ((timeout + 4) / 5)).map (fun i => 5 * i)) := by
      unfold poll_transcription
      rw [h]
      congr 1
      apply List.map_congr_left
      intro i hi
      omega
    refine ⟨h2, ?_⟩
    rw [h2]
    intro t ht
    simp only [List.mem_map, List.mem_range] at ht
    obtain ⟨i, hi, rfl⟩ := ht
    omega
  · intro he hpos
    unfold poll_transcription
    exact pollFrom_error svc timeout 0 0 hpos he

theorem C5_poll_timeout_and_error_witness :
    (poll_transcription svcNeverDone 600
        = (PollResult.timedOut timeoutText,
           (List.range ((600 + 4) / 5)).map (fun i => 5 * i))
      ∧ ∀ t ∈ (poll_transcription svcNeverDone 600).2, t < 600)
    ∧ poll_transcription svcErrorAtOnce 600
        = (PollResult.failed (failText (svcErrorAtOnce 0)), [0]) :=
  ⟨(C5_poll_timeout_and_error svcNeverDone 600).1 (fun m =>
      ⟨show processingData.status ≠ completedStatus by decide,
       show processingData.status ≠ errorStatus by decide⟩),
   (C5_poll_timeout_and_error svcErrorAtOnce 600).2 (by decide) (by decide)⟩

/-- C1 (counterexample): the claim says that on a model response whose
cleaned text is not parsable as JSON, the clip-identification operation
returns an empty sequence and does not raise. For `identify_clips` of
src/app.py this is false: `json.loads` is not guarded, so the call fails
with a JSON decode error instead of returning an empty sequence. -/
theorem C1_counterexample :
    identify_clips (fun _ _ => Except.ok (("not a json array").data)) (fun _ => none)
        (("t").data) [] 5
      = (Except.error ClipError.jsonDecode, 1)
    ∧ (identify_clips (fun _ _ => Except.ok (("not a json array").data)) (fun _ => none)
        (("t").data) [] 5).1
      ≠ Except.ok (Json.arr []) := by
  constructor
  · rfl
  · exact fun h => Except.noConfusion
      (h : (Except.error ClipError.jsonDecode : Except ClipError Json)
            = Except.ok (Json.arr []))

/-- C1 (amended): on a model response whose cleaned text is unparsable,
`find_viral_clips` (src/unnamed/part_000) indeed returns an empty sequence
without raising, but `identify_clips` (src/app.py) raises the JSON decode
error; an error raised by the clip-identification stage propagates out of
`extract_clips`, so the request is answered with a 500 error reply and the
successful transcript is NOT returned. -/
theorem C1_parse_failure_amended (jsonLoads : List Char → Option Json)
    (content t : List Char) (w : List WordToken) (n : Int)
    (hp : jsonLoads (cleanContent content) = none) :
    identify_clips (fun _ _ => Except.ok content) jsonLoads t w n
        = (Except.error ClipError.jsonDecode, 1)
    ∧ find_viral_clips (fun _ _ => Except.ok content) jsonLoads t n = (Json.arr [], 1)
    ∧ ∀ (p : Pipeline) (v a tid : List Char) (d : TranscriptData) (e : List Char),
        v ≠ [] → p.extract_audio_url v = Except.ok a →
        p.submit_transcription a = Except.ok tid →
        p.poll_transcription tid = Except.ok d →
        ¬(d.text = [] ∨ d.words = []) →
        p.identify_clips d.text d.words n = Except.error e →
        (extract_clips_route p (some v) n).1.http_code = 500
        ∧ (extract_clips_route p (some v) n).1.status = errorStatus
        ∧ (extract_clips_route p (some v) n).1.transcript_text = none := by
  refine ⟨?_, ?_, ?_⟩
  · simp [identify_clips, hp]
  · simp [find_viral_clips, hp]
  · intro p v a tid d e hv h1 h2 h3 hde hie
    simp only [extract_clips_route, if_neg hv, h1, h2, h3, if_neg hde, hie]
    exact ⟨trivial, trivial, trivial⟩

theorem C1_parse_failure_amended_witness :
    (identify_clips (fun _ _ => Except.ok (("not json").data)) (fun _ => none)
        (("t").data) [] 5
      = (Except.error ClipError.jsonDecode, 1))
    ∧ (find_viral_clips (fun _ _ => Except.ok (("not json").data)) (fun _ => none)
        (("t").data) 5 = (Json.arr [], 1))
    ∧ ((extract_clips_route demoPipeline (some (("u").data)) 5).1.http_code = 500
       ∧ (extract_clips_route demoPipeline (some (("u").data)) 5).1.status = errorStatus
       ∧ (extract_clips_route demoPipeline (some (("u").data)) 5).1.transcript_text = none) := by
  have h := C1_parse_failure_amended (fun _ => none) (("not json").data) (("t").data) [] 5 rfl
  exact ⟨h.1, h.2.1,
    h.2.2 demoPipeline (("u").data) (("http://audio").data) (("tid1").data) demoPayload
      (("boom").data) (by decide) rfl rfl rfl (by decide) rfl⟩

/-- C3 (counterexample): the claim says elements of the model response
violating the ClipCandidate constraints (e.g. `virality_score = 11` with
`end_ms <= start_ms`) are dropped while valid elements are kept. The code
performs no validation: on a response parsing to `[badClip, goodClip]` it
returns both elements, not just the valid one. -/
theorem C3_counterexample :
    (identify_clips (fun _ _ => Except.ok (("x").data))
        (fun _ => some (Json.arr [badClip, goodClip])) (("t2").data) [] 5).1
      = Except.ok (Json.arr [badClip, goodClip])
    ∧ clipSatisfiesSchema badClip = false
    ∧ clipSatisfiesSchema goodClip = true
    ∧ Json.arr [badClip, goodClip] ≠ Json.arr [goodClip] := by
  refine ⟨rfl, by decide, by decide, ?_⟩
  intro h
  injection h with h1
  exact absurd (congrArg List.length h1) (by decide)

/-- C3 (amended): `identify_clips` performs no validation of the parsed
model response whatsoever: whenever the cleaned response parses to a JSON
array, that array is returned exactly as parsed — elements violating the
ClipCandidate field constraints are kept, in their original positions. -/
theorem C3_no_validation_amended (jsonLoads : List Char → Option Json)
    (content t : List Char) (w : List WordToken) (n : Int) (xs : List Json)
    (hp : jsonLoads (cleanContent content) = some (Json.arr xs)) :
    identify_clips (fun _ _ => Except.ok content) jsonLoads t w n
      = (Except.ok (Json.arr xs), 1) := by
  simp [identify_clips, hp]

theorem C3_no_validation_amended_witness :
    identify_clips (fun _ _ => Except.ok (("x").data))
        (fun _ => some (Json.arr [badClip, goodClip])) (("t").data) [] 5
      = (Except.ok (Json.arr [badClip, goodClip]), 1) :=
  C3_no_validation_amended (fun _ => some (Json.arr [badClip, goodClip]))
    (("x").data) (("t").data) [] 5 [badClip, goodClip] rfl

/-- C7 (counterexample): the claim says the returned clip sequence has
length at most `num_clips`. On a model response parsing to a 6-element
array with `num_clips = 5`, the code returns all 6 elements. -/
theorem C7_counterexample :
    ¬ (clipCount (identify_clips (fun _ _ => Except.ok (("y").data))
        (fun _ => some (Json.arr sixClips)) (("t").data) [] 5) ≤ 5) := by
  decide

/-- C7 (amended): the length of the sequence returned by `identify_clips`
equals the length of whatever array the model response parsed to — no
truncation to `num_clips` is performed, so the bound `length ≤ num_clips`
depends entirely on the model honouring the prompt. -/
theorem C7_no_truncation_amended (jsonLoads : List Char → Option Json)
    (content t : List Char) (w : List WordToken) (n : Int) (xs : List Json)
    (hp : jsonLoads (cleanContent content) = some (Json.arr xs)) :
    clipCount (identify_clips (fun _ _ => Except.ok content) jsonLoads t w n)
      = xs.length := by
  simp [identify_clips, hp, clipCount]

theorem C7_no_truncation_amended_witness :
    clipCount (identify_clips (fun _ _ => Except.ok (("y").data))
        (fun _ => some (Json.arr sixClips)) (("t").data) [] 5)
      = sixClips.length :=
  C7_no_truncation_amended (fun _ => some (Json.arr sixClips)) (("y").data)
    (("t").data) [] 5 sixClips rfl

/-- C9 (counterexample): the claim says that when the remote invocation
fails at the transport/HTTP level, clip identification fails with an
upstream error propagated to the caller rather than returning a result.
`find_viral_clips` (src/unnamed/part_000) catches every exception and
returns an empty list — a normal result, no error reaches the caller. -/
theorem C9_counterexample :
    find_viral_clips (fun _ _ => Except.error (("connection reset").data)) (fun _ => none)
        (("t").data) 5
      = (Json.arr [], 1) := rfl

/-- C9 (amended): both implementations invoke the remote text-generation
service exactly once per call. On transport/HTTP failure `identify_clips`
(src/app.py) propagates the upstream error to the caller, but
`find_viral_clips` (src/unnamed/part_000) swallows it and returns an empty
list instead of failing. -/
theorem C9_single_call_amended (e content t : List Char)
    (jsonLoads : List Char → Option Json) (w : List WordToken) (n : Int) :
    identify_clips (fun _ _ => Except.error e) jsonLoads t w n
        = (Except.error (ClipError.upstream e), 1)
    ∧ (identify_clips (fun _ _ => Except.ok content) jsonLoads t w n).2 = 1
    ∧ find_viral_clips (fun _ _ => Except.error e) jsonLoads t n = (Json.arr [], 1)
    ∧ (find_viral_clips (fun _ _ => Except.ok content) jsonLoads t n).2 = 1 := by
  refine ⟨rfl, ?_, rfl, ?_⟩
  · cases h : jsonLoads (cleanContent content) <;> simp [identify_clips, h]
  · cases h : jsonLoads (cleanContent content) <;> simp [find_viral_clips, h]

/-- C10 (confirmed): when polling completes but the transcript has empty
text or an empty word list, `/api/extract-clips` replies 400 with status
"error" and the message about an empty transcription, and the
clip-identification stage is never invoked. -/
theorem C10_empty_transcript_aborts (p : Pipeline) (v a tid : List Char)
    (d : TranscriptData) (n : Int) (hv : v ≠ [])
    (h1 : p.extract_audio_url v = Except.ok a)
    (h2 : p.submit_transcription a = Except.ok tid)
    (h3 : p.poll_transcription tid = Except.ok d)
    (he : d.text = [] ∨ d.words = []) :
    extract_clips_route p (some v) n
      = (⟨400, errorStatus, some emptyTranscriptMsg, none, none⟩,
         [Stage.resolving, Stage.submitting, Stage.polling])
    ∧ Stage.identifying ∉ (extract_clips_route p (some v) n).2 := by
  have hr : extract_clips_route p (some v) n
      = (⟨400, errorStatus, some emptyTranscriptMsg, none, none⟩,
         [Stage.resolving, Stage.submitting, Stage.polling]) := by
    simp only [extract_clips_route, if_neg hv, h1, h2, h3, if_pos he]
  refine ⟨hr, ?_⟩
  rw [hr]
  decide

theorem C10_empty_transcript_aborts_witness :
    extract_clips_route emptyTranscriptPipeline (some (("u").data)) 5
      = (⟨400, errorStatus, some emptyTranscriptMsg, none, none⟩,
         [Stage.resolving, Stage.submitting, Stage.polling])
    ∧ Stage.identifying ∉ (extract_clips_route emptyTranscriptPipeline (some (("u").data)) 5).2 :=
  C10_empty_transcript_aborts emptyTranscriptPipeline (("u").data) (("http://audio").data)
    (("tid1").data) ⟨completedStatus, [], [], none⟩ 5 (by decide) rfl rfl rfl (Or.inl rfl)
